import Mathlib

/-!
# Verification of the `writ` version-control core

Shallow embedding of the parts of the repository relevant to the frozen
claims: SHA-1 object identity, the object database (store/load), the index
file format (entry read/write, checksummed load, commit), index mutation
with conflict resolution, workspace file listing, commit-message
normalization, file-mode classification, and the status engine's
index-rewrite behaviour.

Bytes are modelled as `Nat` values `< 256`; byte strings as `List Nat`.
Machine integers are `Nat` with explicit `% 2^32` where wraparound matters.
Fallible code returns `Except`.  zlib compression is a bijection between
framed bytes and on-disk bytes and is modelled as the identity, which is
faithful for every property stated here (no claim depends on the
compressed byte values).
-/

namespace Writ

/-! ## Byte-level utilities -/

/-- Truncation to a 32-bit word, `x as u32`. -/
def w32 (n : Nat) : Nat := n % 4294967296

/-- Big-endian base-256 encoding, 4 bytes (`write_u32::<NetworkEndian>`). -/
def be32 (n : Nat) : List Nat :=
  [n / 16777216 % 256, n / 65536 % 256, n / 256 % 256, n % 256]

/-- Big-endian base-256 encoding, 2 bytes (`write_u16::<NetworkEndian>`). -/
def be16 (n : Nat) : List Nat := [n / 256 % 256, n % 256]

/-- Big-endian 8-byte encoding, used by SHA-1 length padding. -/
def be64 (n : Nat) : List Nat :=
  [n / 72057594037927936 % 256, n / 281474976710656 % 256,
   n / 1099511627776 % 256, n / 4294967296 % 256] ++ be32 n

/-- Decode 4 big-endian bytes into a word. -/
def deBe32 (bs : List Nat) : Nat :=
  bs.getD 0 0 * 16777216 + bs.getD 1 0 * 65536 + bs.getD 2 0 * 256 + bs.getD 3 0

/-- Decode 2 big-endian bytes. -/
def deBe16 (bs : List Nat) : Nat := bs.getD 0 0 * 256 + bs.getD 1 0

/-- ASCII decimal digits of `n` (`usize::to_string`), via bounded recursion. -/
def decDigitsGo : Nat → Nat → List Nat
  | 0, _ => []
  | fuel + 1, n => if n < 10 then [48 + n] else decDigitsGo fuel (n / 10) ++ [48 + n % 10]

/-- ASCII decimal representation of `n`. -/
def decDigits (n : Nat) : List Nat := decDigitsGo (n + 1) n

/-- Lowercase hex digit character: `0`–`9` then `a`–`f`. -/
def hexDigit (n : Nat) : Char :=
  if n < 10 then Char.ofNat (48 + n) else Char.ofNat (87 + n)

/-- Lowercase hex string of a byte list (`hex::encode`). -/
def hexEncode (bs : List Nat) : String :=
  String.mk (bs.foldr (fun b acc => hexDigit (b / 16) :: hexDigit (b % 16) :: acc) [])

/-! ## SHA-1 (`ring::digest::SHA1_FOR_LEGACY_USE_ONLY`)

Standard SHA-1 over byte lists: merkle-damgard padding to 64-byte blocks,
80-round compression, 20-byte big-endian digest. -/

/-- Rotate a 32-bit word left by `s`. -/
def rotl (s n : Nat) : Nat := w32 (n * 2 ^ s) + n / 2 ^ (32 - s)

/-- SHA-1 message padding: `0x80`, zeros to 56 mod 64, 8-byte bit length. -/
def sha1Pad (msg : List Nat) : List Nat :=
  msg ++ [128] ++ List.replicate ((119 - msg.length % 64) % 64) 0 ++ be64 (msg.length * 8)

/-- Split a byte list into 64-byte blocks (assumes length is a multiple of 64). -/
def blocksGo : Nat → List Nat → List (List Nat)
  | 0, _ => []
  | _ + 1, [] => []
  | fuel + 1, l => l.take 64 :: blocksGo fuel (l.drop 64)

def blocks (l : List Nat) : List (List Nat) := blocksGo l.length l

/-- The 16 initial 32-bit words of a block. -/
def blockWords (block : List Nat) : List Nat :=
  (List.range 16).map (fun i => deBe32 ((block.drop (4 * i)).take 4))

/-- Extend 16 words to the 80-word schedule. -/
def sha1Schedule (ws : List Nat) : List Nat :=
  (List.range 80).foldl
    (fun acc i =>
      if i < 16 then acc ++ [ws.getD i 0]
      else
        acc ++ [rotl 1 (Nat.xor (acc.getD (i - 3) 0) (Nat.xor (acc.getD (i - 8) 0)
          (Nat.xor (acc.getD (i - 14) 0) (acc.getD (i - 16) 0))))])
    []

/-- Round function. -/
def sha1F (i b c d : Nat) : Nat :=
  if i < 20 then Nat.lor (Nat.land b c) (Nat.land (4294967295 - b) d)
  else if i < 40 then Nat.xor b (Nat.xor c d)
  else if i < 60 then Nat.lor (Nat.lor (Nat.land b c) (Nat.land b d)) (Nat.land c d)
  else Nat.xor b (Nat.xor c d)

/-- Round constants. -/
def sha1K (i : Nat) : Nat :=
  if i < 20 then 1518500249
  else if i < 40 then 1859775393
  else if i < 60 then 2400959708
  else 3395469782

/-- One-block compression. -/
def sha1Compress (h : Nat × Nat × Nat × Nat × Nat) (block : List Nat) :
    Nat × Nat × Nat × Nat × Nat :=
  let ws := sha1Schedule (blockWords block)
  let (h0, h1, h2, h3, h4) := h
  let r := (List.range 80).foldl
    (fun st i =>
      let (a, b, c, d, e) := st
      let t := w32 (rotl 5 a + sha1F i b c d + e + sha1K i + ws.getD i 0)
      (t, a, rotl 30 b, c, d))
    (h0, h1, h2, h3, h4)
  let (a, b, c, d, e) := r
  (w32 (h0 + a), w32 (h1 + b), w32 (h2 + c), w32 (h3 + d), w32 (h4 + e))

/-- SHA-1 digest: 20 bytes. -/
def sha1 (msg : List Nat) : List Nat :=
  let (h0, h1, h2, h3, h4) :=
    (blocks (sha1Pad msg)).foldl sha1Compress
      (1732584193, 4023233417, 2562383102, 271733878, 3285377520)
  be32 h0 ++ be32 h1 ++ be32 h2 ++ be32 h3 ++ be32 h4

/-! ## Ordered maps keyed by byte strings (`BTreeMap<BString, _>`) -/

/-- Strict lexicographic byte order, the `Ord` of `BString` keys. -/
def lexLt : List Nat → List Nat → Bool
  | [], [] => false
  | [], _ :: _ => true
  | _ :: _, [] => false
  | a :: as, b :: bs => if a < b then true else if b < a then false else lexLt as bs

/-- Insert into a sorted association list, replacing an equal key
(`BTreeMap::insert`). -/
def mapInsert {α : Type} (k : List Nat) (v : α) :
    List (List Nat × α) → List (List Nat × α)
  | [] => [(k, v)]
  | (k', v') :: rest =>
    if lexLt k k' then (k, v) :: (k', v') :: rest
    else if k = k' then (k, v) :: rest
    else (k', v') :: mapInsert k v rest

/-- Lookup (`BTreeMap::get`). -/
def mapGet {α : Type} (k : List Nat) : List (List Nat × α) → Option α
  | [] => none
  | (k', v') :: rest => if k = k' then some v' else mapGet k rest

/-- Removal (`BTreeMap::remove`). -/
def mapRemove {α : Type} (k : List Nat) : List (List Nat × α) → List (List Nat × α)
  | [] => []
  | (k', v') :: rest => if k = k' then rest else (k', v') :: mapRemove k rest

/-- Membership (`BTreeMap::contains_key`). -/
def mapContains {α : Type} (k : List Nat) (m : List (List Nat × α)) : Bool :=
  (mapGet k m).isSome

/-- Insert into a sorted list of byte strings (`BTreeSet::insert`). -/
def setInsert (k : List Nat) : List (List Nat) → List (List Nat)
  | [] => [k]
  | k' :: rest =>
    if lexLt k k' then k :: k' :: rest
    else if k = k' then k' :: rest
    else k' :: setInsert k rest

/-- Remove from a set (`BTreeSet::remove`). -/
def setRemove (k : List Nat) : List (List Nat) → List (List Nat)
  | [] => []
  | k' :: rest => if k = k' then rest else k' :: setRemove k rest

/-! ## Object identity and framing (`core/db`, `db/object.rs`)

`UntypedOid::for_bytes` is the SHA-1 digest of its input;
`Oid::for_serialized_bytes` applies it to the framed serialization.
`Db::serialized_prefix` builds `TYPE ' ' ASCII(len) '\0'`. -/

/-- An `Oid` is 20 digest bytes (`UntypedOid([u8; 20])`). -/
abbrev Oid := List Nat

/-- Source `UntypedOid::for_bytes`: SHA-1 of the given bytes. -/
def oidForBytes (bytes : List Nat) : Oid := sha1 bytes

/-- Source `Db::serialized_prefix`: `TYPE ' ' ASCII_LEN '\0'`. -/
def frameHeader (oType : List Nat) (serialized : List Nat) : List Nat :=
  oType ++ [32] ++ decDigits serialized.length ++ [0]

/-- Source `Blob::TYPE = b"blob"`. -/
def blobType : List Nat := [98, 108, 111, 98]

/-- Source `Blob::oid_for_file`: Oid of the framed blob serialization. -/
def blobOidForFile (file : List Nat) : Oid :=
  oidForBytes (frameHeader blobType file ++ file)

/-! ## Object database (`Db::store_bytes`, `Db::load_bytes`, `Blob::deserialize`)

The database is the map from Oid to the stored framed bytes;
`oid_path(oid).exists()` is membership.  zlib encode/decode is modelled as
the identity (it is a bijection on the framed bytes and no claim mentions
the compressed form). -/

/-- The object store: content keyed by Oid. -/
abbrev Db := List (List Nat × List Nat)

/-- The freshly-created database (`Db::new`): no objects. -/
def dbEmpty : Db := []

/-- Source `Db::store_bytes`: frame, hash, and write unless `oid_path` exists. -/
def storeBytes (oType : List Nat) (content : List Nat) (db : Db) : Oid × Db :=
  let bytes := frameHeader oType content ++ content
  let oid := oidForBytes bytes
  if mapContains oid db then (oid, db) else (oid, mapInsert oid bytes db)

/-- IO-level read errors surfaced by the loaders. -/
inductive IoErr where
  | eof
  deriving DecidableEq, Repr

/-- Source `Read::read_exact` into a buffer: fails unless `buf.length` bytes remain;
returns the filled buffer and the rest.  Note the number of bytes read is
the *length* of the buffer, not its capacity. -/
def readExact (bufLen : Nat) (data : List Nat) : Except IoErr (List Nat × List Nat) :=
  if data.length < bufLen then .error .eof
  else .ok (data.take bufLen, data.drop bufLen)

/-- Source `BufRead::read_until b'\0'`: consumed bytes including the delimiter
(at end of input, returns what was read without a delimiter). -/
def readUntilNul : List Nat → List Nat × List Nat
  | [] => ([], [])
  | b :: rest =>
    if b = 0 then ([0], rest)
    else
      let (acc, r) := readUntilNul rest
      (b :: acc, r)

/-- Errors of `Db::load_bytes` (`LoadBytesError`). -/
inductive LoadBytesErr where
  | notFound
  | readHead (e : IoErr)
  | corrupt
  | wrongType
  | parseLen
  deriving DecidableEq, Repr

/-- Source `Db::load_bytes`: open `oid_path`, read `TYPE ' '`, then the ASCII length
up to `'\0'`; returns the parsed length and the remaining bytes. -/
def loadBytes (expectedType : List Nat) (oid : Oid) (db : Db) :
    Except LoadBytesErr (Nat × List Nat) := do
  match mapGet oid db with
  | none => .error .notFound
  | some data =>
    let (oTypeBuf, rest) ← (readExact (expectedType.length + 1) data).mapError .readHead
    let sep := (oTypeBuf.getLast?).getD 0
    let oType := oTypeBuf.dropLast
    if sep ≠ 32 then .error .corrupt
    else if oType ≠ expectedType then .error .wrongType
    else
      let (lenBytes, rest) := readUntilNul rest
      let lenDigits := lenBytes.dropLast
      if lenDigits.any (fun b => b < 48 ∨ 57 < b) ∨ lenDigits = [] then .error .parseLen
      else
        let len := lenDigits.foldl (fun acc d => acc * 10 + (d - 48)) 0
        .ok (len, rest)

/-- A loaded `Blob`: its byte contents and the Oid it was loaded under. -/
structure Blob where
  bytes : List Nat
  oid : Oid
  deriving DecidableEq, Repr

/-- Source `Vec::with_capacity(len)` — an *empty* vector with room reserved:
its length is `0`. -/
def vecWithCapacity (_len : Nat) : List Nat := []

/-- Source `Blob::deserialize`: allocates `Vec::with_capacity(len)` and calls
`read_exact(&mut bytes)`, which fills exactly `bytes.len()` bytes — the
length of the freshly allocated vector, which is `0`. -/
def blobDeserialize (oid : Oid) (len : Nat) (data : List Nat) : Except IoErr Blob := do
  let buf := vecWithCapacity len
  let (bytes, _) ← (readExact buf.length data).map (fun p => p)
  .ok { bytes := bytes, oid := oid }

/-- Errors of `Db::load` (`LoadError`). -/
inductive LoadErr where
  | loadBytes (e : LoadBytesErr)
  | deserialize (e : IoErr)
  deriving DecidableEq, Repr

/-- Source `Db::load::<Blob>` on a fresh handle (empty LRU cache, which `store`
never pre-populates): fetch bytes, parse the frame, deserialize. -/
def dbLoadBlob (oid : Oid) (db : Db) : Except LoadErr Blob := do
  let (len, rest) ← (loadBytes blobType oid db).mapError .loadBytes
  (blobDeserialize oid len rest).mapError .deserialize

deriving instance DecidableEq for Except

/-! ## File modes and stats (`core/stat.rs`) -/

/-- Source `Mode`: regular or executable. -/
inductive Mode where
  | regular
  | executable
  deriving DecidableEq, Repr

/-- Source `Mode::as_u32`: `0o100644` / `0o100755`. -/
def Mode.asU32 : Mode → Nat
  | .regular => 33188
  | .executable => 33261

/-- Source `Mode::from_u32`: executable iff any of the `0o111` bits is set
(`0o111 = 73`); everything else is regular. -/
def modeFromU32 (val : Nat) : Mode :=
  let isExecutable := Nat.land val 73 ≠ 0
  if isExecutable then .executable else .regular

/-- Source `Stat`: the cached metadata snapshot, every numeric field a `u32`. -/
structure Stat where
  ctimeSec : Nat
  ctimeNsec : Nat
  mtimeSec : Nat
  mtimeNsec : Nat
  dev : Nat
  ino : Nat
  mode : Mode
  uid : Nat
  gid : Nat
  size : Nat
  deriving DecidableEq, Repr

/-- Source `Stat::zeroed`. -/
def Stat.zeroed : Stat :=
  { ctimeSec := 0, ctimeNsec := 0, mtimeSec := 0, mtimeNsec := 0,
    dev := 0, ino := 0, mode := .regular, uid := 0, gid := 0, size := 0 }

/-! ## Index entries (`core/index/entry.rs`) -/

/-- Source `PathLen`: low 12 bits of the flags word. -/
inductive PathLen where
  | exactly (n : Nat)
  | maxOrGreater
  deriving DecidableEq, Repr

/-- Source `PathLen::MAX = 0xfff`. -/
def pathLenMax : Nat := 4095

/-- Source `PathLen::from`: exact length when it fits in 12 bits. -/
def PathLen.ofPath (path : List Nat) : PathLen :=
  if path.length ≤ pathLenMax then .exactly path.length else .maxOrGreater

/-- Source `Flags::as_u16`. -/
def PathLen.asU16 : PathLen → Nat
  | .exactly n => n
  | .maxOrGreater => pathLenMax

/-- Source `Flags::from_u16`. -/
def pathLenFromU16 (val : Nat) : PathLen :=
  if val ≤ pathLenMax then .exactly val else .maxOrGreater

/-- An index `Entry`: oid, stat, flags and workspace-relative path bytes. -/
structure Entry where
  oid : Oid
  stat : Stat
  flags : PathLen
  path : List Nat
  deriving DecidableEq, Repr

/-- Source `Entry::new`: flags computed from the path. -/
def Entry.new (path : List Nat) (oid : Oid) (stat : Stat) : Entry :=
  { oid := oid, stat := stat, flags := PathLen.ofPath path, path := path }

/-- Source `Entry::PATH_OFFSET = 62`, `Entry::BLOCK_SIZE = 8`:
`pad = (8 - ((62 + path_len) % 8)) % 8`. -/
def paddingSize (path : List Nat) : Nat :=
  (8 - (62 + path.length) % 8) % 8

/-- Source `Entry::write_to_index`: the on-disk record.  The writer emits the path
followed by exactly `paddingSize path` NUL bytes — which is *zero* bytes
when `(62 + path_len) % 8 = 0`. -/
def entryWrite (e : Entry) : List Nat :=
  be32 e.stat.ctimeSec ++ be32 e.stat.ctimeNsec ++
  be32 e.stat.mtimeSec ++ be32 e.stat.mtimeNsec ++
  be32 e.stat.dev ++ be32 e.stat.ino ++
  be32 e.stat.mode.asU32 ++ be32 e.stat.uid ++ be32 e.stat.gid ++ be32 e.stat.size ++
  e.oid ++
  be16 e.flags.asU16 ++
  e.path ++ List.replicate (paddingSize e.path) 0

/-- Source `read_u32::<NetworkEndian>`. -/
def readU32 (data : List Nat) : Except IoErr (Nat × List Nat) :=
  match readExact 4 data with
  | .error e => .error e
  | .ok r => .ok (deBe32 r.1, r.2)

/-- Source `read_u16::<NetworkEndian>`. -/
def readU16 (data : List Nat) : Except IoErr (Nat × List Nat) :=
  match readExact 2 data with
  | .error e => .error e
  | .ok r => .ok (deBe16 r.1, r.2)

/-- Source `read_u8`. -/
def readU8 (data : List Nat) : Except IoErr (Nat × List Nat) :=
  match data with
  | [] => .error .eof
  | b :: rest => .ok (b, rest)

/-- The path loop of `Entry::parse_from_index`: `read_u8` until a NUL
arrives, failing at end of input. -/
def parsePathLoop : List Nat → Except IoErr (List Nat × List Nat)
  | [] => .error .eof
  | b :: rest =>
    if b = 0 then .ok ([], rest)
    else do
      let (p, r) ← parsePathLoop rest
      .ok (b :: p, r)

/-- Skip `n` bytes via repeated `read_u8`. -/
def skipBytes (n : Nat) (data : List Nat) : Except IoErr (List Nat) :=
  if data.length < n then .error .eof else .ok (data.drop n)

/-- Source `Entry::parse_from_index`: reads the fixed 62-byte prefix, the
NUL-terminated path, then — because one NUL was already consumed —
`paddingSize path - 1` further padding bytes when the padding is at
least 1. -/
def entryParse (data : List Nat) : Except IoErr (Entry × List Nat) := do
  let (ctimeSec, data) ← readU32 data
  let (ctimeNsec, data) ← readU32 data
  let (mtimeSec, data) ← readU32 data
  let (mtimeNsec, data) ← readU32 data
  let (dev, data) ← readU32 data
  let (ino, data) ← readU32 data
  let (modeRaw, data) ← readU32 data
  let mode := modeFromU32 modeRaw
  let (uid, data) ← readU32 data
  let (gid, data) ← readU32 data
  let (size, data) ← readU32 data
  let (oid, data) ← readExact 20 data
  let (flagsRaw, data) ← readU16 data
  let flags := pathLenFromU16 flagsRaw
  let (path, data) ← parsePathLoop data
  let pad := paddingSize path
  let data ← if pad > 1 then skipBytes (pad - 1) data else .ok data
  let stat : Stat :=
    { ctimeSec := ctimeSec, ctimeNsec := ctimeNsec,
      mtimeSec := mtimeSec, mtimeNsec := mtimeNsec,
      dev := dev, ino := ino, mode := mode, uid := uid, gid := gid, size := size }
  .ok ({ oid := oid, stat := stat, flags := flags, path := path }, data)

/-! ## Index file load and commit (`index/mod.rs`) -/

/-- Source `index::LoadError` (the `Corrupt` variants inlined). -/
inductive IndexLoadErr where
  | missingSignature
  | incorrectChecksum
  | unsupportedVersion (v : Nat)
  | io (e : IoErr)
  deriving DecidableEq, Repr

/-- Source `Index::SIG = b"DIRC"`. -/
def dircSig : List Nat := [68, 73, 82, 67]

/-- The entries map loaded from an index file. -/
abbrev EntriesMap := List (List Nat × Entry)

/-- The `for _ in 0..count` parse loop, inserting each entry by its path
key. -/
def parseEntriesLoop : Nat → EntriesMap → List Nat →
    Except IoErr (EntriesMap × List Nat)
  | 0, acc, data => .ok (acc, data)
  | n + 1, acc, data => do
    let (e, data) ← entryParse data
    parseEntriesLoop n (mapInsert e.path e acc) data

/-- The pre-trailer phase of `Index::load_entries_from`: signature, version,
count, entries.  Returns the entries map together with the number of bytes
consumed — exactly the bytes the running `WithDigest` SHA-1 has hashed. -/
def loadIndexCore (bs : List Nat) : Except IndexLoadErr (EntriesMap × Nat) :=
  match readExact 4 bs with
  | .error e => .error (.io e)
  | .ok sig4 =>
    if sig4.1 ≠ dircSig then .error .missingSignature
    else
      match readU32 sig4.2 with
      | .error e => .error (.io e)
      | .ok ver =>
        if ver.1 ≠ 2 then .error (.unsupportedVersion ver.1)
        else
          match readU32 ver.2 with
          | .error e => .error (.io e)
          | .ok cnt =>
            match parseEntriesLoop cnt.1 [] cnt.2 with
            | .error e => .error (.io e)
            | .ok pr => .ok (pr.1, bs.length - pr.2.length)

/-- Source `Index::load_entries_from`: parse the pre-trailer phase while hashing the
consumed bytes, then read the 20-byte trailer and compare. -/
def loadIndex (bs : List Nat) : Except IndexLoadErr EntriesMap :=
  match loadIndexCore bs with
  | .error e => .error e
  | .ok r =>
    let expected := sha1 (bs.take r.2)
    match readExact 20 (bs.drop r.2) with
    | .error e => .error (.io e)
    | .ok t => if t.1 ≠ expected then .error .incorrectChecksum else .ok r.1

/-- Source `IndexMut::commit`: `DIRC`, version, count, each entry in ascending path
order, then the SHA-1 of everything written so far. -/
def commitIndex (entries : EntriesMap) : List Nat :=
  let body := dircSig ++ be32 2 ++ be32 entries.length ++
    (entries.map (fun p => entryWrite p.2)).flatten
  body ++ sha1 body

/-! ## Workspace-relative paths (`core/ws/path.rs`)

`WsPath` is a normalized relative path; `parents()` yields every proper
ancestor (`"a/b/c"` ↦ `["a", "a/b"]`). -/

/-- Split path bytes at `'/'` (byte 47) into components. -/
def splitComponents : List Nat → List (List Nat)
  | [] => [[]]
  | b :: rest =>
    let r := splitComponents rest
    if b = 47 then [] :: r else (b :: r.headD []) :: r.tail

/-- Join components with `'/'`. -/
def joinComponents : List (List Nat) → List Nat
  | [] => []
  | [c] => c
  | c :: rest => c ++ [47] ++ joinComponents rest

/-- Source `WsPath::parents`: the proper ancestor paths, shortest first. -/
def parentsOf (path : List Nat) : List (List Nat) :=
  let comps := splitComponents path
  (List.range (comps.length - 1)).map (fun i => joinComponents (comps.take (i + 1)))

/-! ## Index mutation (`IndexMut` in `index/mod.rs`)

The modifier handle keeps `entries` and a `parents` map (parent path ↦ set
of entry paths beneath it).  `remove(..).expect("Parents out of sync")`
inside `discard_conflicts_with` is a panic; mutation is therefore embedded
in `Except`. -/

abbrev ParentsMap := List (List Nat × List (List Nat))

/-- The in-memory state behind a modifier handle. -/
structure IndexMutSt where
  entries : EntriesMap
  parents : ParentsMap
  deriving DecidableEq, Repr

/-- The state of `Index::modify()` on an empty index. -/
def emptyIndexMut : IndexMutSt := { entries := [], parents := [] }

/-- Source `IndexMut::populate_parents_for`. -/
def populateParentsFor (parents : ParentsMap) (e : Entry) : ParentsMap :=
  (parentsOf e.path).foldl
    (fun ps parent => mapInsert parent (setInsert e.path ((mapGet parent ps).getD [])) ps)
    parents

/-- Source `IndexMut::remove`: drop the entry and prune it from its parents'
child sets, removing sets that become empty. -/
def removeEntry (st : IndexMutSt) (path : List Nat) : Option Entry × IndexMutSt :=
  match mapGet path st.entries with
  | none => (none, st)
  | some e =>
    let entries := mapRemove path st.entries
    let parents := (parentsOf path).foldl
      (fun ps parent =>
        match mapGet parent ps with
        | none => ps
        | some children =>
          let children := setRemove path children
          if children = [] then mapRemove parent ps
          else mapInsert parent children ps)
      st.parents
    (some e, { entries := entries, parents := parents })

/-- The panic raised by `.expect("Parents out of sync")`. -/
inductive PanicErr where
  | parentsOutOfSync
  deriving DecidableEq, Repr

/-- Source `IndexMut::discard_conflicts_with`: drop every ancestor-path entry
directly from the entries map (without touching `parents`), then remove
every registered descendant through `remove`, panicking if one is
missing from the entries map. -/
def discardConflictsWith (st : IndexMutSt) (path : List Nat) :
    Except PanicErr IndexMutSt := do
  let entries := (parentsOf path).foldl (fun es parent => mapRemove parent es) st.entries
  let st := { st with entries := entries }
  match mapGet path st.parents with
  | none => .ok st
  | some conflicts =>
    conflicts.foldlM
      (fun st c =>
        let (removed, st) := removeEntry st c
        match removed with
        | some _ => .ok st
        | none => .error .parentsOutOfSync)
      st

/-- Source `IndexMut::add`: register the new entry's parents, discard conflicting
entries, insert. -/
def indexAdd (st : IndexMutSt) (e : Entry) : Except PanicErr IndexMutSt := do
  let st := { st with parents := populateParentsFor st.parents e }
  let st ← discardConflictsWith st e.path
  .ok { st with entries := mapInsert e.path e st.entries }

/-- A sequence of `add` calls through one modifier handle. -/
def indexAddAll (st : IndexMutSt) (es : List Entry) : Except PanicErr IndexMutSt :=
  es.foldlM indexAdd st

/-! ## Workspace traversal (`core/ws/mod.rs`)

An abstract directory tree stands for the workspace; `read_dir` returns
children in the order listed.  `Workspace::is_ignored` compares the *whole*
workspace-relative path with the single ignore pattern `b".git"`. -/

/-- A named node of the workspace tree. -/
inductive FsTree where
  | file (name : List Nat)
  | dir (name : List Nat) (children : List FsTree)

/-- The node's name. -/
def FsTree.name : FsTree → List Nat
  | .file n => n
  | .dir n _ => n

/-- Source `rel_path.join(entry.file_name())`. -/
def joinPath (rel name : List Nat) : List Nat :=
  if rel = [] then name else rel ++ [47] ++ name

/-- Source `b".git"`. -/
def gitBytes : List Nat := [46, 103, 105, 116]

/-- Source `Workspace::is_ignored`: the whole relative path equals `".git"`. -/
def isIgnored (relPath : List Nat) : Bool := relPath = gitBytes

mutual

/-- Source `Workspace::list_files_in`: skip an ignored path, recurse into
directories, emit files. -/
def listFilesIn (rel : List Nat) : FsTree → List (List Nat)
  | .file _ => if isIgnored rel then [] else [rel]
  | .dir _ children => if isIgnored rel then [] else listFilesInAll rel children

/-- The `read_dir` loop of `list_files_in`. -/
def listFilesInAll (rel : List Nat) : List FsTree → List (List Nat)
  | [] => []
  | c :: cs => listFilesIn (joinPath rel c.name) c ++ listFilesInAll rel cs

end

/-- Source `Workspace::list_files`: traverse from the workspace root (relative
path `""`). -/
def listFiles (root : FsTree) : List (List Nat) := listFilesIn [] root

mutual

/-- All regular-file paths of the tree, in traversal order (the
specification-side reference listing, with no ignore rule). -/
def allFiles (rel : List Nat) : FsTree → List (List Nat)
  | .file _ => [rel]
  | .dir _ children => allFilesAll rel children

def allFilesAll (rel : List Nat) : List FsTree → List (List Nat)
  | [] => []
  | c :: cs => allFiles (joinPath rel c.name) c ++ allFilesAll rel cs

end

/-- A path has some component equal to `".git"` (the claim's exclusion
predicate). -/
def hasGitComponent (path : List Nat) : Bool :=
  (splitComponents path).contains gitBytes

/-- Not the `'/'` byte. -/
def notSlash (b : Nat) : Bool := b ≠ 47

/-- The first component is `".git"` (what the code actually excludes):
the bytes before the first `'/'` equal `".git"`. -/
def headIsGit (path : List Nat) : Bool :=
  path.takeWhile notSlash = gitBytes

/-! ## Commit-message normalization (`Repo::commit`, `core/repo.rs`) -/

/-- Source `CommitError::EmptyMessage`. -/
inductive CommitErr where
  | emptyMessage
  deriving DecidableEq, Repr

/-- The message normalization at the top of `Repo::commit`: reject an empty
message, append `'\n'` unless the message already ends with one. -/
def commitMessage (msg : List Char) : Except CommitErr (List Char) :=
  if msg = [] then .error .emptyMessage
  else if msg.getLast? = some '\n' then .ok msg
  else .ok (msg ++ ['\n'])

/-! ## Status engine (`Repo::status`, `core/repo.rs`, `Entry::index_status_chatty`) -/

/-- Source `Status`. -/
inductive Status where
  | untracked
  | modified
  | unmodified
  | deleted
  | added
  deriving DecidableEq, Repr

/-- Source `StatusChatty`. -/
inductive StatusChatty where
  | unmodified
  | unmodifiedButNewStat (s : Stat)
  | modified
  | deleted
  deriving DecidableEq, Repr

/-- A workspace file: its current metadata and contents. -/
structure WsFile where
  stat : Stat
  data : List Nat
  deriving DecidableEq, Repr

/-- Source `tree::FileNode` as flattened from the HEAD tree. -/
structure FileNode where
  mode : Mode
  oid : Oid
  deriving DecidableEq, Repr

/-- The repository state `status` reads: the flattened HEAD tree, the index
entries, and the workspace files (`list_files` returns their keys). -/
structure RepoSt where
  head : List (List Nat × FileNode)
  index : EntriesMap
  ws : List (List Nat × WsFile)
  deriving DecidableEq, Repr

/-- Source `Entry::index_status_chatty`: stat the file (absent ⇒ deleted), compare
size and mode, then exact ctime/mtime, then fall back to hashing the file
bytes; a hash match with stale times asks for a stat refresh. -/
def indexStatusChatty (ws : List (List Nat × WsFile)) (e : Entry) : StatusChatty :=
  match mapGet e.path ws with
  | none => .deleted
  | some f =>
    if e.stat.size ≠ f.stat.size ∨ e.stat.mode ≠ f.stat.mode then .modified
    else if e.stat.mtimeSec = f.stat.mtimeSec ∧ e.stat.mtimeNsec = f.stat.mtimeNsec ∧
        e.stat.ctimeSec = f.stat.ctimeSec ∧ e.stat.ctimeNsec = f.stat.ctimeNsec then
      .unmodified
    else
      let newOid := blobOidForFile f.data
      if e.oid = newOid then .unmodifiedButNewStat f.stat else .modified

/-- Source `Entry::update_stat` applied through `IndexMut::update_stat`. -/
def entryUpdateStat (e : Entry) (s : Stat) : Entry := { e with stat := s }

/-- Source `Repo::workspace_status_of`: translate the chatty status, recording a
fresh stat in the index on the `UnmodifiedButNewStat` path. -/
def workspaceStatusOf (ws : List (List Nat × WsFile)) (entries : EntriesMap)
    (path : List Nat) : Status × EntriesMap :=
  match mapGet path entries with
  | none => (.untracked, entries)
  | some e =>
    match indexStatusChatty ws e with
    | .unmodified => (.unmodified, entries)
    | .unmodifiedButNewStat s => (.unmodified, mapInsert path (entryUpdateStat e s) entries)
    | .modified => (.modified, entries)
    | .deleted => (.deleted, entries)

/-- Source `Repo::index_status_of`. -/
def indexStatusOf (entries : EntriesMap) (head : List (List Nat × FileNode))
    (path : List Nat) : Status :=
  match mapGet path entries with
  | none => .untracked
  | some e =>
    match mapGet path head with
    | some f => if f.mode = e.stat.mode ∧ f.oid = e.oid then .unmodified else .modified
    | none => .added

/-- Source `FileStatus` (without the redundant `path` field, which is the key). -/
structure FileStatus where
  index : Status
  workspace : Status
  deriving DecidableEq, Repr

/-- What `Repo::status` produces and does: the status map, the entries as
committed, and the byte strings written to the index file. -/
structure StatusResult where
  statuses : List (List Nat × FileStatus)
  entries : EntriesMap
  indexFileWrites : List (List Nat)
  deriving DecidableEq, Repr

/-- The per-path body of the workspace loop in `Repo::status`. -/
def statusWsStep (ws : List (List Nat × WsFile)) (head : List (List Nat × FileNode))
    (acc : EntriesMap × List (List Nat × Status) × List (List Nat × Status))
    (path : List Nat) :
    EntriesMap × List (List Nat × Status) × List (List Nat × Status) :=
  let r := workspaceStatusOf ws acc.1 path
  let i := indexStatusOf r.2 head path
  (r.2, mapInsert path r.1 acc.2.1, mapInsert path i acc.2.2)

/-- Source `Repo::status`: compute both statuses per workspace file (refreshing
stats), mark index entries missing from the workspace and HEAD files
missing from the index as deleted, commit the index — unconditionally —
and assemble the result map. -/
def repoStatus (st : RepoSt) : StatusResult :=
  let r := (st.ws.map (fun p => p.1)).foldl (statusWsStep st.ws st.head) (st.index, [], [])
  let entries := r.1
  let wsStatuses := entries.foldl
    (fun m p => if mapContains p.1 m then m else mapInsert p.1 Status.deleted m) r.2.1
  let idxStatuses := st.head.foldl
    (fun m p => if mapContains p.1 entries then m else mapInsert p.1 Status.deleted m)
    r.2.2
  let write := commitIndex entries
  let r2 := wsStatuses.foldl
    (fun (acc : List (List Nat × FileStatus) × List (List Nat × Status)) p =>
      let i := (mapGet p.1 acc.2).getD .untracked
      (mapInsert p.1 { index := i, workspace := p.2 } acc.1, mapRemove p.1 acc.2))
    ([], idxStatuses)
  let statuses := r2.2.foldl
    (fun acc p => mapInsert p.1 { index := p.2, workspace := Status.deleted } acc) r2.1
  { statuses := statuses, entries := entries, indexFileWrites := [write] }

/-- No index entry asks for a stat refresh in the given repository state. -/
def noStatRefresh (st : RepoSt) : Prop :=
  ∀ p e s, mapGet p st.index = some e →
    indexStatusChatty st.ws e ≠ .unmodifiedButNewStat s

/-! ## Concrete fixtures used by the closed theorems -/

/-- Bytes of a string literal. -/
def strBytes (s : String) : List Nat := s.data.map Char.toNat

/-- Source `b"hello"`. -/
def helloBytes : List Nat := [104, 101, 108, 108, 111]

/-- The all-zero Oid (`Oid::zero`), as in the repository's index fixtures. -/
def zeroOid : Oid := List.replicate 20 0

/-- An index entry with a two-byte path `"ab"`: `62 + 2` is a multiple of 8,
so `paddingSize` is zero. -/
def entryAB : Entry := Entry.new [97, 98] zeroOid Stat.zeroed

/-- Entries for the conflict-resolution failing input. -/
def entrySlashAB : Entry := Entry.new (strBytes "a/b") zeroOid Stat.zeroed

def entrySlashABC : Entry := Entry.new (strBytes "a/b/c") zeroOid Stat.zeroed

def entryJustA : Entry := Entry.new (strBytes "a") zeroOid Stat.zeroed

/-- A workspace with a file under a *nested* `.git` directory. -/
def nestedGitTree : FsTree :=
  .dir (strBytes "root")
    [.file (strBytes "b"),
     .dir (strBytes ".git") [.file (strBytes "x")],
     .dir (strBytes "a") [.dir (strBytes ".git") [.file (strBytes "f")], .file (strBytes "g")]]

/-- A node name that `read_dir` can produce: nonempty, no `'/'`. -/
def goodName (n : List Nat) : Bool := decide (n ≠ [] ∧ (47 : Nat) ∉ n)

mutual

/-- Every name in the tree is a possible directory-entry name. -/
def wfTree : FsTree → Bool
  | .file n => goodName n
  | .dir n cs => goodName n && wfTreeAll cs

def wfTreeAll : List FsTree → Bool
  | [] => true
  | c :: cs => wfTree c && wfTreeAll cs

end

/-! ## Claim theorems -/

set_option maxRecDepth 100000

/-- C1: store/load round-trip does *not* preserve object identity.  Storing
the blob `"hello"` and loading it back yields a blob whose byte sequence is
empty — `Blob::deserialize` allocates `Vec::with_capacity(len)` (length 0)
and `read_exact` fills only that zero-length buffer — so the Oid of the
loaded object's framed serialization is the empty-blob hash, not the stored
Oid. -/
theorem c1_blob_load_loses_bytes :
    dbLoadBlob (storeBytes blobType helloBytes dbEmpty).1
        (storeBytes blobType helloBytes dbEmpty).2 =
      .ok { bytes := [], oid := (storeBytes blobType helloBytes dbEmpty).1 } ∧
    blobOidForFile [] ≠ (storeBytes blobType helloBytes dbEmpty).1 ∧
    (storeBytes blobType helloBytes dbEmpty).1 = blobOidForFile helloBytes := by
  decide

/-- C2: the index does *not* round-trip for every valid entry.  For the
two-byte path `"ab"`, `62 + 2` is a multiple of 8, so the writer emits the
64-byte record with *no* NUL after the path (the record ends in `b'b'`),
while the reader always consumes a terminator; loading the committed index
does not return the original single-entry sequence. -/
theorem c2_index_roundtrip_fails_pad0 :
    paddingSize entryAB.path = 0 ∧
    (entryWrite entryAB).length = 64 ∧
    (entryWrite entryAB).getLast? = some 98 ∧
    loadIndex (commitIndex [(entryAB.path, entryAB)]) ≠
      .ok [(entryAB.path, entryAB)] := by
  decide

/-- C3: a sequence of adds through a modifier handle can panic.  Adding
`a/b`, then `a/b/c` (whose conflict handling removes `a/b` from the entries
map without pruning the parents map), then `a`, reaches
`remove(..).expect("Parents out of sync")` with a stale parents record and
panics; the first two adds alone succeed. -/
theorem c3_add_sequence_panics :
    (indexAddAll emptyIndexMut [entrySlashAB, entrySlashABC]).isOk = true ∧
    indexAddAll emptyIndexMut [entrySlashAB, entrySlashABC, entryJustA] =
      .error .parentsOutOfSync := by
  decide

/-- C8: the Git reference vectors for blob hashing.  The empty blob and the
blob `"hello"` hash to the documented Oids, the hash covers the framing
`"blob LEN\0"` followed by the payload, and hashing the raw payload gives a
different digest. -/
theorem c8_blob_hash_vectors :
    hexEncode (blobOidForFile []) = "e69de29bb2d1d6434b8b29ae775ad8c2e48c5391" ∧
    hexEncode (blobOidForFile helloBytes) = "b6fc4c620b67d95f953a5c1c1230aaab5db5a1b0" ∧
    blobOidForFile helloBytes =
      oidForBytes (strBytes "blob 5" ++ [0] ++ helloBytes) ∧
    blobOidForFile helloBytes ≠ oidForBytes helloBytes := by
  decide

/-- Source `lexLt` is irreflexive. -/
theorem lexLt_irrefl (k : List Nat) : lexLt k k = false := by
  induction k with
  | nil => rfl
  | cons hd tl ih => simp [lexLt, ih]

/-- Inserting a key makes it present. -/
theorem mapGet_mapInsert_self {α : Type} (k : List Nat) (v : α)
    (m : List (List Nat × α)) : mapGet k (mapInsert k v m) = some v := by
  induction m with
  | nil => simp [mapInsert, mapGet]
  | cons hd tl ih =>
    by_cases hlt : lexLt k hd.1
    · simp [mapInsert, hlt, mapGet]
    · by_cases heq : k = hd.1
      · simp [mapInsert, hlt, heq, mapGet, lexLt_irrefl]
      · simp [mapInsert, hlt, heq, mapGet, ih]

/-- C7: `Db::store_bytes` is deterministic and idempotent: storing the same
payload twice (any payload, any object kind, any starting database) returns
the same Oid both times, and the second store finds `oid_path` present and
leaves the database unchanged. -/
theorem c7_store_idempotent (oType content : List Nat) (db : Db) :
    (storeBytes oType content (storeBytes oType content db).2).1 =
      (storeBytes oType content db).1 ∧
    (storeBytes oType content (storeBytes oType content db).2).2 =
      (storeBytes oType content db).2 := by
  unfold storeBytes
  by_cases h : mapContains (oidForBytes (frameHeader oType content ++ content)) db
  · simp [h]
  · simp only [h, if_false, if_true]
    have hmem : mapContains (oidForBytes (frameHeader oType content ++ content))
        (mapInsert (oidForBytes (frameHeader oType content ++ content))
          (frameHeader oType content ++ content) db) = true := by
      simp [mapContains, mapGet_mapInsert_self]
    simp [hmem]

/-- C9: `Repo::commit` normalizes a non-empty message by appending exactly
one `'\n'` when the message does not already end with one, and stores it
unchanged when it does. -/
theorem c9_commit_message_newline (msg : List Char) (h : msg ≠ []) :
    (msg.getLast? = some '\n' → commitMessage msg = .ok msg) ∧
    (msg.getLast? ≠ some '\n' → commitMessage msg = .ok (msg ++ ['\n'])) := by
  refine ⟨fun hl => ?_, fun hl => ?_⟩ <;> simp [commitMessage, h, hl]

/-- Witness for C9 at the concrete messages `"hi"` and `"hi\n"`. -/
theorem c9_commit_message_newline_witness :
    commitMessage ['h', 'i'] = .ok ['h', 'i', '\n'] ∧
    commitMessage ['h', 'i', '\n'] = .ok ['h', 'i', '\n'] :=
  ⟨(c9_commit_message_newline ['h', 'i'] (by decide)).2 (by decide),
   (c9_commit_message_newline ['h', 'i', '\n'] (by decide)).1 (by decide)⟩

/-- C10: `Mode::from_u32` classifies a raw mode word as `Executable` exactly
when one of the three execute bits (`0o111 = 73`) is set, and as `Regular`
otherwise — in particular `0o100644 = 33188` is regular, `0o100755 = 33261`
is executable, and a mode that is neither of the two canonical constants,
such as `0o100600 = 33152`, falls back to `Regular`. -/
theorem c10_mode_from_u32 (v : Nat) :
    (modeFromU32 v = .executable ↔ Nat.land v 73 ≠ 0) ∧
    (modeFromU32 v = .regular ↔ Nat.land v 73 = 0) ∧
    modeFromU32 33188 = .regular ∧
    modeFromU32 33261 = .executable ∧
    modeFromU32 33152 = .regular := by
  refine ⟨?_, ?_, by decide, by decide, by decide⟩ <;>
    by_cases h : Nat.land v 73 = 0 <;> simp [modeFromU32, h]

/-- Source `takeWhile notSlash` of a slash-free list is the whole list. -/
theorem takeWhile_no47 (a : List Nat) (h : (47 : Nat) ∉ a) :
    a.takeWhile notSlash = a := by
  induction a with
  | nil => rfl
  | cons b a ih =>
    simp only [List.mem_cons, not_or] at h
    have hb : notSlash b = true := by simp [notSlash, Ne.symm h.1]
    simp [List.takeWhile_cons, hb, ih h.2]

/-- Source `takeWhile notSlash` stops at the first slash. -/
theorem takeWhile_append47 (a s : List Nat) (h : (47 : Nat) ∉ a) :
    (a ++ 47 :: s).takeWhile notSlash = a := by
  induction a with
  | nil =>
    have hb : notSlash 47 = false := by simp [notSlash]
    simp [List.takeWhile_cons, hb]
  | cons b a ih =>
    simp only [List.mem_cons, not_or] at h
    have hb : notSlash b = true := by simp [notSlash, Ne.symm h.1]
    simp [List.takeWhile_cons, hb, ih h.2]

/-- Membership in the traversal of a child list. -/
theorem allFilesAll_mem (rel : List Nat) (cs : List FsTree) (p : List Nat) :
    p ∈ allFilesAll rel cs ↔ ∃ c ∈ cs, p ∈ allFiles (joinPath rel c.name) c := by
  induction cs with
  | nil => simp [allFilesAll]
  | cons c cs ih => simp [allFilesAll, ih]

/-- Every path produced below a nonempty prefix either is the prefix or
extends it through a slash. -/
theorem allFiles_shape (k : Nat) :
    ∀ t : FsTree, sizeOf t ≤ k → ∀ rel p, rel ≠ [] → p ∈ allFiles rel t →
      p = rel ∨ ∃ s, p = rel ++ 47 :: s := by
  induction k with
  | zero =>
    intro t ht
    exact absurd ht (by cases t <;> simp)
  | succ k ih =>
    intro t ht rel p hrel hp
    cases t with
    | file n =>
      left
      simpa [allFiles] using hp
    | dir n cs =>
      simp only [allFiles] at hp
      rcases (allFilesAll_mem rel cs p).1 hp with ⟨c, hc, hpc⟩
      have hsz : sizeOf c ≤ k := by
        have h1 := List.sizeOf_lt_of_mem hc
        simp only [FsTree.dir.sizeOf_spec] at ht
        omega
      have hj : joinPath rel c.name = rel ++ 47 :: c.name := by
        simp [joinPath, hrel]
      rcases ih c hsz (joinPath rel c.name) p (by simp [hj]) hpc with h | ⟨s, hs⟩
      · right
        exact ⟨c.name, by rw [h, hj]⟩
      · right
        rw [hj] at hs
        exact ⟨c.name ++ 47 :: s, by simp [hs]⟩

/-- Below a nonempty, non-`".git"` relative path the ignore rule can never
fire again, so the traversal lists every file. -/
theorem listFilesIn_eq_allFiles (k : Nat) :
    ∀ t : FsTree, sizeOf t ≤ k → ∀ rel, rel ≠ [] → rel ≠ gitBytes →
      listFilesIn rel t = allFiles rel t := by
  induction k with
  | zero =>
    intro t ht
    exact absurd ht (by cases t <;> simp)
  | succ k ih =>
    intro t ht rel h1 h2
    cases t with
    | file n => simp [listFilesIn, allFiles, isIgnored, h2]
    | dir n cs =>
      have hcs : sizeOf cs ≤ k := by
        simp only [FsTree.dir.sizeOf_spec] at ht
        omega
      clear ht
      have hig : isIgnored rel = false := by simp [isIgnored, h2]
      simp only [listFilesIn, allFiles, hig, Bool.false_eq_true, if_false]
      revert hcs
      induction cs with
      | nil => intro _; rfl
      | cons c cs' ihc =>
        intro hcs
        have hszc : sizeOf c ≤ k := by
          simp only [List.cons.sizeOf_spec] at hcs
          omega
        have hszcs : sizeOf cs' ≤ k := by
          simp only [List.cons.sizeOf_spec] at hcs
          omega
        have hj : joinPath rel c.name = rel ++ 47 :: c.name := by
          simp [joinPath, h1]
        have h1' : joinPath rel c.name ≠ [] := by simp [hj]
        have h2' : joinPath rel c.name ≠ gitBytes := by
          rw [hj]
          intro heq
          have h47 : (47 : Nat) ∈ gitBytes := by
            rw [← heq]
            simp
          simp [gitBytes] at h47
        simp [listFilesInAll, allFilesAll, ih c hszc _ h1' h2', ihc hszcs]

/-- List version of `listFilesIn_eq_allFiles` for a nonempty prefix. -/
theorem listFilesInAll_deep (cs : List FsTree) (rel : List Nat) (h1 : rel ≠ []) :
    listFilesInAll rel cs = allFilesAll rel cs := by
  induction cs with
  | nil => rfl
  | cons c cs' ih =>
    have hj : joinPath rel c.name = rel ++ 47 :: c.name := by simp [joinPath, h1]
    have h1' : joinPath rel c.name ≠ [] := by simp [hj]
    have h2' : joinPath rel c.name ≠ gitBytes := by
      rw [hj]
      intro heq
      have h47 : (47 : Nat) ∈ gitBytes := by
        rw [← heq]
        simp
      simp [gitBytes] at h47
    simp [listFilesInAll, allFilesAll,
      listFilesIn_eq_allFiles (sizeOf c) c le_rfl _ h1' h2', ih]

/-- A well-formed node's name is a good directory-entry name. -/
theorem wfTree_goodName (c : FsTree) (h : wfTree c = true) : goodName c.name = true := by
  cases c with
  | file n => simpa [wfTree, FsTree.name] using h
  | dir n cs =>
    simp only [wfTree, Bool.and_eq_true] at h
    simpa [FsTree.name] using h.1

/-- The top-level loop: a child named `".git"` contributes nothing, any
other child contributes its full file listing. -/
theorem listFilesInAll_root (cs : List FsTree) (hwf : wfTreeAll cs = true) :
    listFilesInAll [] cs = (allFilesAll [] cs).filter (fun p => !headIsGit p) := by
  induction cs with
  | nil => rfl
  | cons c cs' ih =>
    simp only [wfTreeAll, Bool.and_eq_true] at hwf
    simp only [listFilesInAll, allFilesAll, List.filter_append]
    rw [ih hwf.2]
    have hgood : goodName c.name = true := wfTree_goodName c hwf.1
    simp only [goodName, decide_eq_true_eq] at hgood
    have hj : joinPath [] c.name = c.name := by simp [joinPath]
    rw [hj]
    congr 1
    by_cases hgit : c.name = gitBytes
    · have lhs0 : listFilesIn c.name c = [] := by
        cases c <;> simp_all [listFilesIn, isIgnored, FsTree.name]
      rw [lhs0]
      symm
      rw [List.filter_eq_nil_iff]
      intro p hp
      rcases allFiles_shape (sizeOf c) c le_rfl c.name p hgood.1 hp with h | ⟨s, hs⟩
      · rw [h, hgit]
        decide
      · rw [hgit] at hs
        rw [hs]
        simp [headIsGit, takeWhile_append47 gitBytes s (by decide)]
    · have hfilter : (allFiles c.name c).filter (fun p => !headIsGit p) =
          allFiles c.name c := by
        rw [List.filter_eq_self]
        intro p hp
        rcases allFiles_shape (sizeOf c) c le_rfl c.name p hgood.1 hp with h | ⟨s, hs⟩
        · simp [headIsGit, h, takeWhile_no47 _ hgood.2, hgit]
        · simp [headIsGit, hs, takeWhile_append47 _ _ hgood.2, hgit]
      rw [hfilter]
      cases c with
      | file n =>
        simp_all [listFilesIn, allFiles, isIgnored, FsTree.name]
      | dir n cs2 =>
        simp only [FsTree.name] at hgit hgood ⊢
        have hig : isIgnored n = false := by simp [isIgnored, hgit]
        simp only [listFilesIn, allFiles, hig, Bool.false_eq_true, if_false]
        exact listFilesInAll_deep cs2 n hgood.1

/-- C6 counterexample: the claim fails on a workspace with a *nested*
`.git` directory.  `list_files` on this tree emits `a/.git/f`, a path with
a `.git` component, because `Workspace::is_ignored` compares the whole
relative path — not each component — against `".git"`. -/
theorem c6_nested_git_is_listed :
    wfTree nestedGitTree = true ∧
    strBytes "a/.git/f" ∈ listFiles nestedGitTree ∧
    hasGitComponent (strBytes "a/.git/f") = true := by
  decide

/-- C6 amended: for every workspace tree (with plausible entry names),
`list_files` returns exactly the regular-file paths whose *first* component
is not `".git"`: only the top-level `.git` entry is excluded, deeper
components named `.git` are traversed. -/
theorem c6_list_files_excludes_top_git (t : FsTree) (h : wfTree t = true) :
    listFiles t = (allFiles [] t).filter (fun p => !headIsGit p) := by
  cases t with
  | file n =>
    simp [listFiles, listFilesIn, allFiles, isIgnored, headIsGit, gitBytes]
  | dir n cs =>
    simp only [wfTree, Bool.and_eq_true] at h
    simp only [listFiles, listFilesIn, allFiles, isIgnored]
    rw [if_neg (by simp [gitBytes])]
    exact listFilesInAll_root cs h.2

/-- Witness for C6 amended at the nested-`.git` tree. -/
theorem c6_list_files_excludes_top_git_witness :
    listFiles nestedGitTree =
      (allFiles [] nestedGitTree).filter (fun p => !headIsGit p) :=
  c6_list_files_excludes_top_git nestedGitTree (by decide)

/-- When no entry wants a stat refresh, the workspace-status computation
leaves the entries map untouched. -/
theorem workspaceStatusOf_noRefresh (st : RepoSt) (h : noStatRefresh st)
    (path : List Nat) : (workspaceStatusOf st.ws st.index path).2 = st.index := by
  unfold workspaceStatusOf
  cases hget : mapGet path st.index with
  | none => simp
  | some e =>
    cases hc : indexStatusChatty st.ws e with
    | unmodifiedButNewStat s => exact absurd hc (h path e s hget)
    | unmodified => simp [hc]
    | modified => simp [hc]
    | deleted => simp [hc]

/-- The workspace loop of `status` preserves the entries map when no stat
refresh is collected. -/
theorem statusFold_entries (st : RepoSt) (h : noStatRefresh st)
    (paths : List (List Nat)) :
    ∀ a b, (paths.foldl (statusWsStep st.ws st.head) (st.index, a, b)).1 = st.index := by
  induction paths with
  | nil => intro a b; rfl
  | cons p ps ih =>
    intro a b
    have hstep : statusWsStep st.ws st.head (st.index, a, b) p =
        (st.index, mapInsert p (workspaceStatusOf st.ws st.index p).1 a,
         mapInsert p (indexStatusOf st.index st.head p) b) := by
      simp [statusWsStep, workspaceStatusOf_noRefresh st h p]
    rw [List.foldl_cons, hstep]
    exact ih _ _

/-- C5 counterexample: `status` on the empty repository state collects no
stat refreshes, yet it still writes the index file — `Repo::status` opens a
modifier handle and calls `commit()` unconditionally. -/
theorem c5_status_rewrites_without_refresh :
    noStatRefresh { head := [], index := [], ws := [] } ∧
    (repoStatus { head := [], index := [], ws := [] }).indexFileWrites ≠ [] := by
  constructor
  · intro p e s hget
    simp [mapGet] at hget
  · decide

/-- C5 amended: `status` performs exactly one index-file write per call,
unconditionally; when no stat refresh was collected the committed entries —
and hence the bytes written — are the serialization of the unchanged index.
-/
theorem c5_status_always_commits (st : RepoSt) (h : noStatRefresh st) :
    (repoStatus st).indexFileWrites = [commitIndex st.index] ∧
    (repoStatus st).entries = st.index := by
  have hfold := statusFold_entries st h (st.ws.map (fun p => p.1)) [] []
  constructor <;> simp [repoStatus, hfold]

/-- Witness for C5 amended at the empty repository state. -/
theorem c5_status_always_commits_witness :
    (repoStatus { head := [], index := [], ws := [] }).indexFileWrites =
      [commitIndex []] ∧
    (repoStatus { head := [], index := [], ws := [] }).entries = [] :=
  c5_status_always_commits { head := [], index := [], ws := [] }
    (fun p e s hget => by simp [mapGet] at hget)

/-! Helper lemmas about `List.set` against `take`, `drop` and `getD`. -/

theorem take_set_lt (l : List Nat) (v : Nat) :
    ∀ p n, p < n → (l.set p v).take n = (l.take n).set p v := by
  induction l with
  | nil => intro p n _; simp
  | cons b l ih =>
    intro p n hpn
    cases p with
    | zero =>
      cases n with
      | zero => omega
      | succ n => simp
    | succ p =>
      cases n with
      | zero => omega
      | succ n => simp [ih p n (by omega)]

theorem take_set_ge (l : List Nat) (v : Nat) :
    ∀ p n, n ≤ p → (l.set p v).take n = l.take n := by
  induction l with
  | nil => intro p n _; simp
  | cons b l ih =>
    intro p n hpn
    cases p with
    | zero =>
      cases n with
      | zero => simp
      | succ n => omega
    | succ p =>
      cases n with
      | zero => simp
      | succ n => simp [ih p n (by omega)]

theorem drop_set_ge (l : List Nat) (v : Nat) :
    ∀ p n, n ≤ p → (l.set p v).drop n = (l.drop n).set (p - n) v := by
  induction l with
  | nil => intro p n _; simp
  | cons b l ih =>
    intro p n hpn
    cases n with
    | zero => simp
    | succ n =>
      cases p with
      | zero => omega
      | succ p => simpa using ih p n (by omega)

theorem getD_set_self (l : List Nat) (v : Nat) :
    ∀ p, p < l.length → (l.set p v).getD p 0 = v := by
  induction l with
  | nil => intro p hp; simp at hp
  | cons b l ih =>
    intro p hp
    cases p with
    | zero => simp
    | succ p =>
      simp only [List.length_cons] at hp
      simpa using ih p (by omega)

theorem getD_take (l : List Nat) :
    ∀ p n, p < n → (l.take n).getD p 0 = l.getD p 0 := by
  induction l with
  | nil => intro p n _; simp
  | cons b l ih =>
    intro p n hpn
    cases n with
    | zero => omega
    | succ n =>
      cases p with
      | zero => simp
      | succ p => simpa using ih p n (by omega)

theorem getD_drop (l : List Nat) :
    ∀ n q, (l.drop n).getD q 0 = l.getD (n + q) 0 := by
  induction l with
  | nil => intro n q; simp
  | cons b l ih =>
    intro n q
    cases n with
    | zero => simp
    | succ n =>
      have : n + 1 + q = (n + q) + 1 := by omega
      simp [this, ih n q]

/-- A decoded big-endian word changes when one of its four bytes changes. -/
theorem deBe32_ne_of_set (l : List Nat) (q v : Nat) (hq : q < 4) (hlen : l.length = 4)
    (hbytes : ∀ b ∈ l, b < 256) (_hv : v < 256) (hne : v ≠ l.getD q 0) :
    deBe32 (l.set q v) ≠ deBe32 l := by
  rcases l with _ | ⟨a, _ | ⟨b, _ | ⟨c, _ | ⟨d, _ | _⟩⟩⟩⟩ <;> simp at hlen
  have ha : a < 256 := hbytes a (by simp)
  have hbb : b < 256 := hbytes b (by simp)
  have hc : c < 256 := hbytes c (by simp)
  have hd : d < 256 := hbytes d (by simp)
  interval_cases q <;> simp [deBe32, List.getD] at hne ⊢ <;> omega

/-! Inversion lemmas for a well-formed index load. -/

theorem loadIndexCore_sig (bs : List Nat) (es : EntriesMap) (n : Nat)
    (h : loadIndexCore bs = .ok (es, n)) :
    4 ≤ bs.length ∧ bs.take 4 = dircSig := by
  unfold loadIndexCore readExact at h
  by_cases hlen : bs.length < 4
  · simp [hlen] at h
  · refine ⟨by omega, ?_⟩
    simp only [if_neg hlen] at h
    by_cases hsig : bs.take 4 = dircSig
    · exact hsig
    · simp [hsig] at h

theorem loadIndexCore_version (bs : List Nat) (es : EntriesMap) (n : Nat)
    (h : loadIndexCore bs = .ok (es, n)) :
    8 ≤ bs.length ∧ deBe32 ((bs.drop 4).take 4) = 2 := by
  unfold loadIndexCore readU32 readExact at h
  by_cases hlen : bs.length < 4
  · simp [hlen] at h
  · simp only [if_neg hlen] at h
    by_cases hsig : bs.take 4 = dircSig
    · by_cases h8 : bs.length - 4 < 4
      · simp [hsig, List.length_drop, h8] at h
      · have hge : 8 ≤ bs.length := by omega
        refine ⟨hge, ?_⟩
        by_cases hv : deBe32 ((bs.drop 4).take 4) = 2
        · exact hv
        · simp [hsig, List.length_drop, h8, hv] at h
    · simp [hsig] at h

/-- C4 counterexample: the claim fails at the very first byte.  The
committed empty index is a well-formed file whose trailer starts at offset
12; changing byte 0 (`'D'` ↦ `'E'`) — a position strictly before the
trailer — makes load fail with `MissingSignature`, not
`IncorrectChecksum`. -/
theorem c4_corrupt_signature_not_checksum :
    loadIndex (commitIndex []) = .ok [] ∧
    (commitIndex []).length = 32 ∧
    (commitIndex []).getD 0 0 = 68 ∧
    loadIndex ((commitIndex []).set 0 69) = .error .missingSignature := by
  decide

/-- C4 amended: single-byte corruption strictly before the trailer is
reported, but the error depends on the region.  A corrupted signature byte
yields `MissingSignature` and a corrupted version byte
`UnsupportedVersion`, not `IncorrectChecksum`; for corruption elsewhere,
whenever the entry section of the corrupted file still parses — consuming
`m` bytes with the 20-byte trailer still in range — and the recomputed
SHA-1 of the consumed bytes differs from the trailer then read, the load
fails with `IncorrectChecksum`. -/
theorem c4_single_byte_corruption (bs : List Nat) (es : EntriesMap) (n p b' : Nat)
    (hcore : loadIndexCore bs = .ok (es, n))
    (hlen : bs.length = n + 20)
    (_hp : p < n) (hb : b' < 256)
    (hbytes : ∀ b ∈ bs, b < 256)
    (hmod : b' ≠ bs.getD p 0) :
    (p < 4 → loadIndex (bs.set p b') = .error .missingSignature) ∧
    (4 ≤ p → p < 8 →
      ∃ v, v ≠ 2 ∧ loadIndex (bs.set p b') = .error (.unsupportedVersion v)) ∧
    (∀ es' m, loadIndexCore (bs.set p b') = .ok (es', m) → m + 20 ≤ bs.length →
      sha1 ((bs.set p b').take m) ≠ ((bs.set p b').drop m).take 20 →
      loadIndex (bs.set p b') = .error .incorrectChecksum) := by
  obtain ⟨hsig_len, hsig⟩ := loadIndexCore_sig bs es n hcore
  obtain ⟨hver_len, hver⟩ := loadIndexCore_version bs es n hcore
  have hlen' : (bs.set p b').length = bs.length := by simp
  refine ⟨?_, ?_, ?_⟩
  · intro hp4
    have hsig' : (bs.set p b').take 4 = dircSig.set p b' := by
      rw [take_set_lt _ _ p 4 hp4, hsig]
    have hne : ¬((bs.set p b').take 4 = dircSig) := by
      rw [hsig']
      intro heq
      have h1 : (dircSig.set p b').getD p 0 = b' :=
        getD_set_self _ _ p (by simp [dircSig]; omega)
      rw [heq] at h1
      have h2 : dircSig.getD p 0 = bs.getD p 0 := by
        rw [← hsig, getD_take bs p 4 hp4]
      exact hmod (by rw [← h1, h2])
    have h4 : ¬(bs.length < 4) := by omega
    unfold loadIndex loadIndexCore readExact
    simp [h4, hne]
  · intro hp4 hp8
    have hsig' : (bs.set p b').take 4 = dircSig := by
      rw [take_set_ge _ _ p 4 hp4, hsig]
    have hdrop4 : (bs.set p b').drop 4 = (bs.drop 4).set (p - 4) b' :=
      drop_set_ge _ _ p 4 hp4
    have hq : p - 4 < 4 := by omega
    have hvb : ((bs.set p b').drop 4).take 4 = ((bs.drop 4).take 4).set (p - 4) b' := by
      rw [hdrop4, take_set_lt _ _ (p - 4) 4 hq]
    have hwlen : ((bs.drop 4).take 4).length = 4 := by
      simp [List.length_take, List.length_drop]
      omega
    have hwbytes : ∀ b ∈ (bs.drop 4).take 4, b < 256 := by
      intro b hbmem
      exact hbytes b (List.mem_of_mem_drop (List.mem_of_mem_take hbmem))
    have hgetD : ((bs.drop 4).take 4).getD (p - 4) 0 = bs.getD p 0 := by
      rw [getD_take _ _ _ hq, getD_drop]
      congr 1
      omega
    have hvne : deBe32 (((bs.drop 4).take 4).set (p - 4) b') ≠ 2 := by
      rw [← hver]
      exact deBe32_ne_of_set _ (p - 4) b' hq hwlen hwbytes hb (by rw [hgetD]; exact hmod)
    refine ⟨deBe32 (((bs.drop 4).take 4).set (p - 4) b'), hvne, ?_⟩
    have h4 : ¬(bs.length < 4) := by omega
    have h8 : ¬(bs.length - 4 < 4) := by omega
    unfold loadIndex loadIndexCore readU32 readExact
    simp [h4, h8, hsig', List.length_drop, hvb, hvne]
  · intro es' m hcore' hm hne
    have hdl : ¬(bs.length - m < 20) := by omega
    unfold loadIndex readExact
    rw [hcore']
    simp [hdl]
    exact fun heq => hne heq.symm

/-- Witness for C4 amended: the committed empty index with byte 0 changed
to `'E'`. -/
theorem c4_single_byte_corruption_witness :
    (0 < 4 → loadIndex ((commitIndex []).set 0 69) = .error .missingSignature) ∧
    (4 ≤ 0 → 0 < 8 →
      ∃ v, v ≠ 2 ∧
        loadIndex ((commitIndex []).set 0 69) = .error (.unsupportedVersion v)) ∧
    (∀ es' m, loadIndexCore ((commitIndex []).set 0 69) = .ok (es', m) →
      m + 20 ≤ (commitIndex []).length →
      sha1 (((commitIndex []).set 0 69).take m) ≠
        (((commitIndex []).set 0 69).drop m).take 20 →
      loadIndex ((commitIndex []).set 0 69) = .error .incorrectChecksum) :=
  c4_single_byte_corruption (commitIndex []) [] 12 0 69 (by decide) (by decide)
    (by decide) (by decide) (by decide) (by decide)

end Writ
